import Mathlib

/-!
Verification of the ijq live jq front-end.

A shallow embedding, in Lean 4, of the core of `ijq` (interactive jq):
the filter-executor (`Document.WriteTo` / `Document.ReadFrom`), the
display pane with lazy clearing (`pane.Write`), the option
serialization (`Options.ToSlice`), the history store (`history.Add`),
the key-binding resolver (`KeyBinding.UnmarshalText` / `Matches`), the
autocomplete key-quoting step, and the pending/wake execution loop of
`createApp`.

Conventions of the embedding:
* Go strings are Lean `String`s; the Go standard-library string
  helpers the code calls (`strings.TrimSpace`, `strings.Split`,
  `strings.LastIndex`, `strings.ToLower`, ...) are re-implemented
  below as structural functions on the underlying character list, so
  that every definition evaluates by kernel reduction.  Unicode case
  mapping (`unicode.ToUpper` / `strings.ToLower`) is modelled on the
  ASCII range (identity elsewhere), which covers every descriptor and
  flag the program manipulates.
* The external `jq` subprocess is outside the repository; a single run
  of it is modelled by a `ProcRun` value recording what the process
  wrote to stdout (as the list of `Write` chunks), what it wrote to
  stderr, and how it exited.  `Document.WriteTo` is then a pure
  function of the document, the destination and the `ProcRun`.
* Stateful Go methods become functions returning the updated state;
  value receivers (such as `Document.WriteTo`'s) return the receiver
  as the method body left it, to state frame properties.
* File-system effects of the history store are modelled by threading
  the backing file's list of lines (`fmt.Fprintln` appends a line);
  I/O failures are not modelled (no claim concerns them).
-/

deriving instance DecidableEq for Except

namespace Ijq

/-! Section: Go string primitives (character-list based) -/

/-- Models `unicode.IsSpace`, restricted to the ASCII whitespace the program
encounters. -/
def goIsSpace (c : Char) : Bool :=
  c = ' ' || c = '\t' || c = '\n' || c = '\r' || c = '\x0b' || c = '\x0c'

/-- Drop leading whitespace of a character list. -/
def dropSpaceLeft : List Char → List Char
  | [] => []
  | c :: cs => if goIsSpace c then dropSpaceLeft cs else c :: cs

/-- Models `strings.TrimSpace` on the character list. -/
def goTrimList (l : List Char) : List Char :=
  ((dropSpaceLeft ((dropSpaceLeft l.reverse)).reverse))

/-- Models `strings.TrimSpace`. -/
def goTrimSpace (s : String) : String := ⟨goTrimList s.data⟩

/-- Models `strings.ToLower` on one character (ASCII range; identity beyond). -/
def goToLowerChar (c : Char) : Char :=
  if 'A' ≤ c ∧ c ≤ 'Z' then Char.ofNat (c.toNat + 32) else c

/-- Models `unicode.ToUpper` on one character (ASCII range; identity beyond). -/
def goToUpperChar (c : Char) : Char :=
  if 'a' ≤ c ∧ c ≤ 'z' then Char.ofNat (c.toNat - 32) else c

/-- Models `strings.ToLower`. -/
def goToLower (s : String) : String := ⟨s.data.map goToLowerChar⟩

/-- Models `strings.Split` at a one-character separator. -/
def splitOnChar (sep : Char) : List Char → List (List Char)
  | [] => [[]]
  | c :: cs =>
    let r := splitOnChar sep cs
    if c = sep then [] :: r
    else
      match r with
      | [] => [[c]]
      | h :: t => (c :: h) :: t

/-- Models `strings.LastIndex s (sep as one character)`, returned as the pair
of the text before and after the last occurrence (`none` when the
separator does not occur). -/
def splitAtLast (sep : Char) : List Char → Option (List Char × List Char)
  | [] => none
  | c :: cs =>
    match splitAtLast sep cs with
    | some (pre, post) => some (c :: pre, post)
    | none => if c = sep then some ([], cs) else none

/-- Models `strings.Join parts "+"` for character-list parts. -/
def joinPlus (parts : List (List Char)) : String :=
  ⟨List.intercalate ['+'] parts⟩

/-! Section: Options and their flag serialization (`main.go`: `Options`, `ToSlice`) -/

/-- The configuration fields of `Config` that the embedded functions
consult (the `Keymap` field is carried by the key-binding section
below and is not read by the executor). -/
structure Config where
  HistoryFile : String
  JQCommand : String
  HideInputPane : Bool
  LibraryPaths : List String
deriving DecidableEq

structure Options where
  compact : Bool
  nullInput : Bool
  slurp : Bool
  rawOutput : Bool
  joinOutput : Bool
  asciiOutput : Bool
  rawInput : Bool
  monochrome : Bool
  sortKeys : Bool
  forceColor : Bool
  config : Config
deriving DecidableEq

/-- Models `Options.ToSlice`: the jq flag list, one flag per enabled boolean
option, then a `-L dir` pair per library path, in the source's order. -/
def Options.ToSlice (o : Options) : List String :=
  let opts : List String := []
  let opts := opts ++ (if o.compact then ["-c"] else [])
  let opts := opts ++ (if o.nullInput then ["-n"] else [])
  let opts := opts ++ (if o.slurp then ["-s"] else [])
  let opts := opts ++ (if o.rawOutput then ["-r"] else [])
  let opts := opts ++ (if o.joinOutput then ["-j"] else [])
  let opts := opts ++ (if o.asciiOutput then ["-a"] else [])
  let opts := opts ++ (if o.rawInput then ["-R"] else [])
  let opts := opts ++ (if o.monochrome then ["-M"] else [])
  let opts := opts ++ (if o.forceColor then ["-C"] else [])
  let opts := opts ++ (if o.sortKeys then ["-S"] else [])
  o.config.LibraryPaths.foldl (fun acc path => acc ++ ["-L", path]) opts

/-! Section: The display pane (`main.go`: `pane`, `pane.Write`) -/

/-- A `pane` wraps a text view; `contents` is the list of chunks the
underlying `tview.TextView` holds (`tv.Clear()` empties it, a write
appends). -/
structure Pane where
  contents : List String
  dirty : Bool
deriving DecidableEq

/-- Models `pane.Write`: if the pane is dirty, clear the text view and reset
the flag before appending the chunk.  Returns the updated pane and the
reported byte count. -/
def Pane.Write (pa : Pane) (p : String) : Pane × Nat :=
  let pa := if pa.dirty then { pa with contents := [], dirty := false } else pa
  ({ pa with contents := pa.contents ++ [p] }, p.utf8ByteSize)

/-! Section: The filter executor (`main.go`: `Document`, `ReadFrom`, `WriteTo`) -/

structure Document where
  input : String
  filter : String
  options : Options
deriving DecidableEq

/-- Models `Document.WithFilter`: same input and options, new filter (and a
fresh background context, which the run model below carries). -/
def Document.WithFilter (d : Document) (filter : String) : Document :=
  { input := d.input, filter := filter, options := d.options }

/-- Models `Document.ReadFrom`: buffer the whole reader into `input`,
reporting the number of bytes read. -/
def Document.ReadFrom (d : Document) (r : String) : Document × Nat :=
  ({ d with input := r }, r.utf8ByteSize)

/-- One run of the external jq subprocess (jq itself is outside the
repository): the chunks it writes to the destination via stdout, the
bytes it writes to stderr, and its exit code — `none` for exit 0,
`some c` when `cmd.Run` fails with an `*exec.ExitError` whose
`ExitCode()` is `c` (`-1` when the process was killed by context
cancellation). -/
structure ProcRun where
  out : List String
  stderrBytes : String
  exitCode : Option Int
deriving DecidableEq

/-- The error values the embedded functions return. `exitError c s` is
an `*exec.ExitError` with exit code `c` whose `Stderr` field was set to
the captured stderr bytes `s`.  `emptyPath` is the `ErrEmptyPath` value
of the older history-store revision, kept to state claims about it. -/
inductive GoError
  | exitError (code : Int) (stderr : String)
  | emptyPath
deriving DecidableEq

/-- A `WriteTo` destination: either the interactive display `pane`
(matched by the `w.(*pane)` type assertion) or a plain byte sink such
as `bytes.Buffer` or stdout, holding the chunks written to it. -/
inductive Dest
  | pane (p : Pane)
  | buffer (chunks : List String)
deriving DecidableEq

/-- Marking the pane dirty before any output is written
(`p.dirty = true` in `WriteTo`). -/
def paneStart (p : Pane) : Pane := { p with dirty := true }

/-- The subprocess's stdout chunks flowing through `pane.Write` (via
`tview.ANSIWriter`, which rewrites escape sequences in the text and is
modelled as the identity on content). -/
def paneFlush (p : Pane) (chunks : List String) : Pane :=
  chunks.foldl (fun pa c => (pa.Write c).1) p

/-- The per-invocation option overrides applied when the destination is
the interactive pane. -/
def paneOverride (o : Options) : Options :=
  { o with forceColor := true, monochrome := false, compact := false, rawOutput := false }

/-- The outcome of `Document.WriteTo`: the receiver as the method body
left it, the final destination state, the options actually serialized
into the subprocess argv, the argv, the reported byte count and the
error. -/
structure WriteResult where
  doc : Document
  dest : Dest
  opts : Options
  args : List String
  n : Int
  err : Option GoError
deriving DecidableEq

/-- Models `Document.WriteTo`: if the writer is the pane, override the options
(`forceColor := true`, `monochrome/compact/rawOutput := false`), wrap it
in an ANSI writer and mark it dirty, with a deferred manual clear when
the run ends without error while the pane is still dirty; run jq with
`opts.ToSlice()` plus the filter, stdout to the destination, stderr
captured; on a failed run attach the captured stderr to the exit error
and report `(0, err)`; on success report `(0, nil)`. -/
def Document.WriteTo (d : Document) (w : Dest) (run : ProcRun) : WriteResult :=
  match w with
  | .pane p0 =>
    let opts := paneOverride d.options
    let p := paneStart p0
    let args := opts.ToSlice ++ [d.filter]
    let p := paneFlush p run.out
    match run.exitCode with
    | some code =>
      { doc := d, dest := .pane p, opts := opts, args := args, n := 0,
        err := some (.exitError code run.stderrBytes) }
    | none =>
      let p := if p.dirty then { p with contents := [] } else p
      { doc := d, dest := .pane p, opts := opts, args := args, n := 0, err := none }
  | .buffer bs =>
    let opts := d.options
    let args := opts.ToSlice ++ [d.filter]
    let bs := bs ++ run.out
    match run.exitCode with
    | some code =>
      { doc := d, dest := .buffer bs, opts := opts, args := args, n := 0,
        err := some (.exitError code run.stderrBytes) }
    | none =>
      { doc := d, dest := .buffer bs, opts := opts, args := args, n := 0, err := none }

/-- The pane component of a `WriteTo` result, when the destination was
the pane. -/
def WriteResult.paneDest (r : WriteResult) : Option Pane :=
  match r.dest with
  | .pane p => some p
  | .buffer _ => none

/-! Section: The history store (`history.go`, current revision: `history`,
`Add`, `contains`).  The `Items` display list (the same lines with
tview color tags escaped) is not read by any embedded function and is
elided.  The backing file is threaded as its list of lines;
`fmt.Fprintln file expression` appends one line. -/

structure History where
  path : String
  lines : List String
deriving DecidableEq

/-- Models `contains`: linear scan for an exact string match. -/
def contains : List String → String → Bool
  | [], _ => false
  | v :: rest, elem => if elem = v then true else contains rest elem

/-- Models `history.Add`: trim the expression; empty expressions, an
unconfigured (empty) path, and expressions already present verbatim in
the loaded history are silent no-ops; otherwise append to the
in-memory lines and append one line to the backing file. -/
def History.Add (h : History) (file : List String) (expression : String) :
    History × List String × Option GoError :=
  let expression := goTrimSpace expression
  if expression = "" then (h, file, none)
  else if h.path = "" then (h, file, none)
  else if contains h.lines expression then (h, file, none)
  else ({ h with lines := h.lines ++ [expression] }, file ++ [expression], none)

/-! Section: The key-binding resolver (`keymap.go`) -/

/-- Models `tcell.ModMask` as its set of modifier bits. -/
structure ModMask where
  shift : Bool
  ctrl : Bool
  alt : Bool
  meta : Bool
deriving DecidableEq

def ModNone : ModMask := ⟨false, false, false, false⟩

/-- Key codes of the external tcell library (`tcell.Key`); the subset
of constants the embedded definitions mention, at tcell's values. -/
def KeyRune : Nat := 256
def KeyUp : Nat := 257
def KeyDown : Nat := 258
def KeyRight : Nat := 259
def KeyLeft : Nat := 260
def KeyPgUp : Nat := 266
def KeyPgDn : Nat := 267
def KeyHome : Nat := 268
def KeyEnd : Nat := 269
def KeyInsert : Nat := 270
def KeyDelete : Nat := 271
def KeyBacktab : Nat := 278
def KeyBackspace : Nat := 8
def KeyTab : Nat := 9
def KeyEnter : Nat := 13
def KeyEsc : Nat := 27

/-- Models `keyNameLookup`: the lowercased `tcell.KeyNames` table (a
representative subset — tcell names are all at least two characters
long) plus the five aliases the source adds. -/
def keyNameLookup : List (String × Nat) :=
  [("up", KeyUp), ("down", KeyDown), ("right", KeyRight), ("left", KeyLeft),
   ("pgup", KeyPgUp), ("pgdn", KeyPgDn), ("home", KeyHome), ("end", KeyEnd),
   ("insert", KeyInsert), ("delete", KeyDelete), ("backtab", KeyBacktab),
   ("backspace", KeyBackspace), ("tab", KeyTab), ("enter", KeyEnter),
   ("esc", KeyEsc), ("escape", KeyEsc),
   ("return", KeyEnter), ("pageup", KeyPgUp), ("pagedown", KeyPgDn),
   ("pgdown", KeyPgDn), ("shift-tab", KeyBacktab)]

def lookupKeyName (name : String) : Option Nat :=
  (keyNameLookup.find? (fun p => p.1 = name)).map (fun p => p.2)

/-- Models `isModifier`. -/
def isModifier (value : String) : Bool :=
  let v := goToLower value
  v = "shift" || v = "alt" || v = "ctrl" || v = "control" || v = "meta"

/-- Models `splitKeyBinding`: split a descriptor into the modifier text and
the base key, handling the lone `+`, a doubled trailing separator, the
last `+` separator, a whole-descriptor named key, and the `-`
separator form whose leading segments must all be modifiers. -/
def splitKeyBinding (value : String) : String × String :=
  let cs := value.data
  if cs = ['+'] then ("", "+")
  else if cs.reverse.take 2 = ['+', '+'] then
    (⟨goTrimList (cs.dropLast.dropLast)⟩, "+")
  else
    match splitAtLast '+' cs with
    | some (pre, post) => (⟨goTrimList pre⟩, ⟨goTrimList post⟩)
    | none =>
      if (lookupKeyName (goToLower value)).isSome then ("", value)
      else
        let parts := splitOnChar '-' cs
        if parts.length < 2 then ("", value)
        else if (parts.dropLast).all (fun part => isModifier ⟨goTrimList part⟩) then
          (joinPlus ((parts.dropLast).map goTrimList), ⟨goTrimList (parts.getLastD [])⟩)
        else ("", value)

structure KeyBinding where
  key : Nat
  rune : Char
  mods : ModMask
deriving DecidableEq

inductive KeyParseErr
  | emptyBinding
  | missingKey
  | unknownModifier (m : String)
  | unknownKey (k : String)
deriving DecidableEq

/-- The modifier loop of `KeyBinding.UnmarshalText`: each
`+`-separated segment, trimmed and lowercased, must be one of
shift / alt / ctrl / control / meta. -/
def parseModifiers : List (List Char) → ModMask → Except KeyParseErr ModMask
  | [], mods => .ok mods
  | m :: rest, mods =>
    let modifier := goToLower ⟨goTrimList m⟩
    if modifier = "shift" then parseModifiers rest { mods with shift := true }
    else if modifier = "alt" then parseModifiers rest { mods with alt := true }
    else if modifier = "ctrl" ∨ modifier = "control" then
      parseModifiers rest { mods with ctrl := true }
    else if modifier = "meta" then parseModifiers rest { mods with meta := true }
    else .error (.unknownModifier modifier)

/-- Models `KeyBinding.UnmarshalText`: trim; reject empty descriptors and
modifier-only descriptors; parse the modifier segments; look the base
key up in the name table; retry a `ctrl-` prefixed lookup when Ctrl is
among the modifiers; a single-character base becomes a literal-rune
binding, with Shift absorbed into the uppercased rune when the
uppercase transform differs; anything else is an unknown key. -/
def KeyBinding.UnmarshalText (text : String) : Except KeyParseErr KeyBinding :=
  let trimmed := goTrimSpace text
  if trimmed = "" then .error .emptyBinding
  else
    let (modsPart, base) := splitKeyBinding trimmed
    if base = "" then .error .missingKey
    else
      let modsResult :=
        if modsPart = "" then Except.ok ModNone
        else parseModifiers (splitOnChar '+' modsPart.data) ModNone
      match modsResult with
      | .error e => .error e
      | .ok mods =>
        let base := goTrimSpace base
        match lookupKeyName (goToLower base) with
        | some key => .ok { key := key, rune := Char.ofNat 0, mods := mods }
        | none =>
          let ctrlLookup :=
            if mods.ctrl then lookupKeyName ("ctrl-" ++ goToLower base) else none
          match ctrlLookup with
          | some key =>
            .ok { key := key, rune := Char.ofNat 0, mods := { mods with ctrl := false } }
          | none =>
            match base.data with
            | [r] =>
              let rm :=
                if mods.shift then
                  let upper := goToUpperChar r
                  if upper ≠ r then (upper, { mods with shift := false }) else (r, mods)
                else (r, mods)
              .ok { key := KeyRune, rune := rm.1, mods := rm.2 }
            | _ => .error (.unknownKey base)

/-- A `tcell.EventKey`: key code, rune and modifier mask. -/
structure EventKey where
  key : Nat
  rune : Char
  mods : ModMask
deriving DecidableEq

/-- Models `KeyBinding.Matches`: exact equality of key code and modifier set;
literal-rune bindings additionally require the event's rune. -/
def KeyBinding.Matches (binding : KeyBinding) (event : EventKey) : Bool :=
  if event.key ≠ binding.key then false
  else if binding.key = KeyRune ∧ event.rune ≠ binding.rune then false
  else event.mods = binding.mods

/-! Section: Autocomplete key quoting (`main.go`: `specialChars`, `alphabet`,
and the entry-building loop of `SetAutocompleteFunc`) -/

/-- Special characters that, if present in a JSON key, need to be
quoted in the jq filter. -/
def specialChars : String := ".-:$/"

def alphabet : String := "abcdefghijklmnopqrstuvwxyz"

/-- The quoting step of the autocomplete goroutine: lowercase the
key's first character; if the key contains any special character or
the lowercased first character is not in `alphabet`, wrap the key in
double quotes.  (Go indexes `k[0]`, which panics on an empty key; the
model leaves an empty key unchanged and the theorems consider
non-empty keys.) -/
def quoteKey (k : String) : String :=
  match k.data with
  | [] => k
  | c :: _ =>
    let first := goToLowerChar c
    if k.data.any (fun ch => specialChars.data.contains ch)
        ∨ ¬ (alphabet.data.contains first) then
      ⟨'"' :: k.data ++ ['"']⟩
    else k

/-- One candidate entry: `prefix + "." + key` after quoting. -/
def autocompleteEntry (pre k : String) : String := pre ++ "." ++ quoteKey k

/-! Section: The execution loop of `createApp` (`main.go`)

The shared state the mutex protects: the current document's filter
(the `SetChangedFunc` closure replaces `doc` by `doc.WithFilter text`),
the `pending` flag, and — for the specification — the list of filter
expressions for which an execution has been started, in order. -/

structure LoopState where
  filter : String
  pending : Bool
  executed : List String
deriving DecidableEq

/-- The `SetChangedFunc` closure: unchanged text returns early;
otherwise cancel the in-flight run, and under the mutex replace the
document by `doc.WithFilter text`, set `pending` and signal. -/
def textChanged (s : LoopState) (text : String) : LoopState :=
  if text = s.filter then s
  else { filter := text, pending := true, executed := s.executed }

/-- One wake-up of the execution-loop goroutine: while `pending` is
unset it stays on `cond.Wait()` (no state change); otherwise it
atomically snapshots the document, clears `pending`, and starts the
execution of the snapshot's filter. -/
def loopStep (s : LoopState) : LoopState :=
  if s.pending then
    { filter := s.filter, pending := false, executed := s.executed ++ [s.filter] }
  else s

/-! Section: helper lemmas -/

/-- Membership in a conditional singleton flag list. -/
theorem mem_if_singleton (b : Bool) (x a : String) :
    x ∈ (if b then [a] else []) ↔ (b = true ∧ x = a) := by
  cases b <;> simp

/-- The linear scan `contains` decides exact-string membership in the
whole list. -/
theorem contains_iff (arr : List String) (x : String) :
    contains arr x = true ↔ x ∈ arr := by
  induction arr with
  | nil => simp [contains]
  | cons v rest ih =>
    by_cases h : x = v <;> simp [contains, h, ih]

/-- Writing a chunk list to a clean pane appends it. -/
theorem paneFlush_clean (cs : List String) (p : Pane) (h : p.dirty = false) :
    paneFlush p cs = ⟨p.contents ++ cs, false⟩ := by
  induction cs generalizing p with
  | nil =>
    obtain ⟨pc, pd⟩ := p
    simp_all [paneFlush]
  | cons c rest ih =>
    obtain ⟨pc, pd⟩ := p
    subst h
    simpa [paneFlush, Pane.Write] using ih ⟨pc ++ [c], false⟩ rfl

/-- Writing a non-empty chunk list to a dirty pane clears the prior
contents on the first write and then appends every chunk. -/
theorem paneFlush_dirty (c : String) (cs : List String) (p : Pane) (h : p.dirty = true) :
    paneFlush p (c :: cs) = ⟨c :: cs, false⟩ := by
  obtain ⟨pc, pd⟩ := p
  subst h
  simpa [paneFlush, Pane.Write] using paneFlush_clean cs ⟨[c], false⟩ rfl

/-- Character membership in the lowercase alphabet, by code point. -/
theorem mem_alphabet_iff (c : Char) :
    c ∈ alphabet.data ↔ (97 ≤ c.toNat ∧ c.toNat ≤ 122) := by
  constructor
  · intro h
    fin_cases h <;> decide
  · rintro ⟨h1, h2⟩
    have hc : Char.ofNat c.toNat = c := Char.ofNat_toNat c
    interval_cases h : c.toNat <;> simp_all <;> exact hc ▸ (by decide)

/-- The uppercase ASCII letters, as the character class that claim C9
names (this list is specification vocabulary, not program code). -/
def upperAlpha : String := "ABCDEFGHIJKLMNOPQRSTUVWXYZ"

/-- Character membership in the uppercase alphabet, by code point. -/
theorem mem_upperAlpha_iff (c : Char) :
    c ∈ upperAlpha.data ↔ (65 ≤ c.toNat ∧ c.toNat ≤ 90) := by
  constructor
  · intro h
    fin_cases h <;> decide
  · rintro ⟨h1, h2⟩
    have hc : Char.ofNat c.toNat = c := Char.ofNat_toNat c
    interval_cases h : c.toNat <;> simp_all <;> exact hc ▸ (by decide)

/-- The code's letter test — lowercase the first character, then check
membership in `alphabet` — accepts exactly the ASCII letters of either
case. -/
theorem alphabet_contains_toLower (c : Char) :
    alphabet.data.contains (goToLowerChar c) = true ↔
      (c ∈ alphabet.data ∨ c ∈ upperAlpha.data) := by
  rw [List.elem_iff]
  by_cases h : ('A' ≤ c ∧ c ≤ 'Z')
  · have hb : (65 ≤ c.toNat ∧ c.toNat ≤ 90) := h
    constructor
    · intro _
      exact Or.inr (mem_upperAlpha_iff c |>.mpr hb)
    · intro _
      rw [goToLowerChar, if_pos h, mem_alphabet_iff]
      have hv : (Char.ofNat (c.toNat + 32)).toNat = c.toNat + 32 := by
        obtain ⟨h1, h2⟩ := hb
        have hc : Char.ofNat c.toNat = c := Char.ofNat_toNat c
        interval_cases hn : c.toNat <;> simp_all
      omega
  · have hb : ¬ (65 ≤ c.toNat ∧ c.toNat ≤ 90) := h
    rw [goToLowerChar, if_neg h]
    constructor
    · intro hm
      exact Or.inl hm
    · rintro (hm | hm)
      · exact hm
      · exact absurd ((mem_upperAlpha_iff c).mp hm) hb

/-! Section: the claims -/

/-- A fully-default option set, used to instantiate universally
quantified statements at a concrete input. -/
def opts0 : Options :=
  ⟨false, false, false, false, false, false, false, false, false, false,
   ⟨"", "jq", false, []⟩⟩

/-- The quoting condition exactly as claim C9 words it: the key
contains a special character, or does not start with a *lowercase*
ASCII letter.  This definition follows the claim's words, not the
code, and exists to compare the two. -/
def claimC9QuoteCond (k : String) : Bool :=
  k.data.any (fun ch => specialChars.data.contains ch) ||
  !(match k.data with
    | c :: _ => alphabet.data.contains c
    | [] => false)

/-- Claim C9 is false at the key `"Foo"`: by the claim's condition the
key must be quoted (it does not start with a lowercase letter), but the
code lowercases the first character before the letter test, so `"Foo"`
is left unquoted and the candidate is `.Foo`. -/
theorem C9_counterexample :
    claimC9QuoteCond "Foo" = true ∧
    quoteKey "Foo" = "Foo" ∧
    autocompleteEntry "" "Foo" = ".Foo" ∧
    ("Foo" : String) ≠ ⟨'"' :: "Foo".data ++ ['"']⟩ := by
  decide

/-- C9 (amended): a structural key is wrapped in double quotes iff it
contains one of the special characters `. - : $ /` or does not start
with an ASCII letter of either case (the code lowercases the first
character before the alphabet test, so an uppercase first letter also
counts as a letter); each candidate is `prefix + "." + key`. -/
theorem C9_quote_iff (pre k : String) (c : Char) (cs : List Char)
    (hk : k.data = c :: cs) :
    autocompleteEntry pre k = pre ++ "." ++ quoteKey k ∧
    (quoteKey k = (⟨'"' :: k.data ++ ['"']⟩ : String) ↔
      (k.data.any (fun ch => specialChars.data.contains ch) = true
        ∨ ¬ (c ∈ alphabet.data ∨ c ∈ upperAlpha.data))) := by
  refine ⟨rfl, ?_⟩
  have hcond :
      ((k.data.any (fun ch => specialChars.data.contains ch) = true)
        ∨ ¬ (alphabet.data.contains (goToLowerChar c) = true)) ↔
      ((k.data.any (fun ch => specialChars.data.contains ch) = true)
        ∨ ¬ (c ∈ alphabet.data ∨ c ∈ upperAlpha.data)) := by
    rw [alphabet_contains_toLower c]
  have hquote :
      quoteKey k =
        (if (k.data.any (fun ch => specialChars.data.contains ch) = true)
            ∨ ¬ (alphabet.data.contains (goToLowerChar c) = true) then
          (⟨'"' :: k.data ++ ['"']⟩ : String)
        else k) := by
    rw [quoteKey, hk]
  by_cases h : ((k.data.any (fun ch => specialChars.data.contains ch) = true)
      ∨ ¬ (alphabet.data.contains (goToLowerChar c) = true))
  · rw [hquote, if_pos h]
    exact ⟨fun _ => hcond.mp h, fun _ => rfl⟩
  · rw [hquote, if_neg h]
    constructor
    · intro hq
      have hd : k.data = '"' :: k.data ++ ['"'] := congrArg String.data hq
      have hl : k.data.length = ('"' :: k.data ++ ['"']).length := congrArg List.length hd
      simp [List.length_append] at hl
      omega
    · intro hc
      exact absurd (hcond.mpr hc) h

/-- Witness for `C9_quote_iff` at the key `a.b` under the empty
prefix. -/
theorem C9_quote_iff_witness :
    quoteKey "a.b" = (⟨'"' :: "a.b".data ++ ['"']⟩ : String) :=
  (C9_quote_iff "" "a.b" 'a' ['.', 'b'] rfl).2.mpr (Or.inl (by decide))

/-- C1: if the filter text changes three times before the execution
loop wakes, the pending flag is set and the document snapshot carries
the last filter; the next loop wake-up executes exactly that one
filter (atomically clearing the pending flag), and a further wake-up
executes nothing — the two superseded snapshots are never executed. -/
theorem C1_latest_snapshot_only (s : LoopState) (t1 t2 t3 : String)
    (h1 : t1 ≠ s.filter) (h2 : t2 ≠ t1) (h3 : t3 ≠ t2) :
    (textChanged (textChanged (textChanged s t1) t2) t3).pending = true ∧
    (textChanged (textChanged (textChanged s t1) t2) t3).filter = t3 ∧
    (loopStep (textChanged (textChanged (textChanged s t1) t2) t3)).executed
      = s.executed ++ [t3] ∧
    (loopStep (textChanged (textChanged (textChanged s t1) t2) t3)).pending = false ∧
    loopStep (loopStep (textChanged (textChanged (textChanged s t1) t2) t3))
      = loopStep (textChanged (textChanged (textChanged s t1) t2) t3) := by
  simp [textChanged, loopStep, h1, h2, h3]

/-- Witness for `C1_latest_snapshot_only`: three successive edits of
the initial filter `.` produce exactly one execution, of the third. -/
theorem C1_latest_snapshot_only_witness :
    (loopStep (textChanged (textChanged (textChanged ⟨".", false, []⟩ ".a") ".b") ".c")).executed
      = [".c"] :=
  (C1_latest_snapshot_only ⟨".", false, []⟩ ".a" ".b" ".c"
    (by decide) (by decide) (by decide)).2.2.1

/-- C2: a pane-destination run marks the pane dirty before writing;
with no output and an error the prior contents survive (still dirty);
with no output and no error the pane is force-cleared afterward; with
any output the first write lazily clears the prior contents and the
pane ends holding exactly the run's output. -/
theorem C2_pane_dirty_lazy_clear (d : Document) (p : Pane) (run : ProcRun) :
    (paneStart p).dirty = true ∧
    (run.out = [] → run.exitCode ≠ none →
      (d.WriteTo (.pane p) run).paneDest = some ⟨p.contents, true⟩) ∧
    (run.out = [] → run.exitCode = none →
      (d.WriteTo (.pane p) run).paneDest = some ⟨[], true⟩) ∧
    (∀ c cs, run.out = c :: cs →
      (d.WriteTo (.pane p) run).paneDest = some ⟨run.out, false⟩) := by
  obtain ⟨out, se, ec⟩ := run
  refine ⟨rfl, ?_, ?_, ?_⟩
  · rintro rfl hne
    cases ec with
    | none => exact absurd rfl hne
    | some c =>
      simp [Document.WriteTo, WriteResult.paneDest, paneFlush, paneStart]
  · rintro rfl rfl
    simp [Document.WriteTo, WriteResult.paneDest, paneFlush, paneStart]
  · rintro c cs rfl
    have hflush := paneFlush_dirty c cs (paneStart p) rfl
    cases ec <;>
      simp [Document.WriteTo, WriteResult.paneDest, hflush]

/-- Witness for `C2_pane_dirty_lazy_clear`: a failed run with no
output leaves the old contents (pane dirty), and a successful run with
output replaces them. -/
theorem C2_pane_dirty_lazy_clear_witness :
    ((⟨"x", ".", opts0⟩ : Document).WriteTo (.pane ⟨["old"], false⟩)
        ⟨[], "boom", some 2⟩).paneDest = some ⟨["old"], true⟩ ∧
    ((⟨"x", ".", opts0⟩ : Document).WriteTo (.pane ⟨["old"], false⟩)
        ⟨["new"], "", none⟩).paneDest = some ⟨["new"], false⟩ :=
  ⟨((C2_pane_dirty_lazy_clear ⟨"x", ".", opts0⟩ ⟨["old"], false⟩
      ⟨[], "boom", some 2⟩).2.1) rfl (by decide),
   ((C2_pane_dirty_lazy_clear ⟨"x", ".", opts0⟩ ⟨["old"], false⟩
      ⟨["new"], "", none⟩).2.2.2) "new" [] rfl⟩

/-- C3: a pane-destination run serializes the per-invocation override
of the user options — force-color on, monochrome off, compact off,
raw-output off, all other fields untouched — so its flag list always
carries `-C` and never `-M`, `-c` or `-r`; a plain-sink run serializes
the user options unchanged. -/
theorem C3_pane_option_overrides (d : Document) (p : Pane) (run : ProcRun) :
    (d.WriteTo (.pane p) run).opts = paneOverride d.options ∧
    paneOverride d.options =
      { d.options with forceColor := true, monochrome := false,
                       compact := false, rawOutput := false } ∧
    (∀ bs run2, (d.WriteTo (.buffer bs) run2).opts = d.options) ∧
    (d.options.config.LibraryPaths = [] →
      "-C" ∈ (d.WriteTo (.pane p) run).opts.ToSlice ∧
      "-M" ∉ (d.WriteTo (.pane p) run).opts.ToSlice ∧
      "-c" ∉ (d.WriteTo (.pane p) run).opts.ToSlice ∧
      "-r" ∉ (d.WriteTo (.pane p) run).opts.ToSlice) := by
  obtain ⟨out, se, ec⟩ := run
  have hopts : (d.WriteTo (.pane p) ⟨out, se, ec⟩).opts = paneOverride d.options := by
    cases ec <;> simp [Document.WriteTo]
  refine ⟨hopts, rfl, ?_, ?_⟩
  · intro bs run2
    obtain ⟨o2, s2, e2⟩ := run2
    cases e2 <;> simp [Document.WriteTo]
  · intro hlib
    rw [hopts]
    refine ⟨?_, ?_, ?_, ?_⟩ <;>
      simp [Options.ToSlice, paneOverride, hlib, mem_if_singleton]

/-- Witness for `C3_pane_option_overrides` at a document requesting
monochrome, compact, raw output: the pane run still serializes the
colorized pretty defaults. -/
theorem C3_pane_option_overrides_witness :
    ((⟨"x", ".",
        ⟨true, false, false, true, false, false, false, true, false, false,
         ⟨"", "jq", false, []⟩⟩⟩ : Document).WriteTo
      (.pane ⟨[], false⟩) ⟨[], "", none⟩).opts.ToSlice = ["-C"] :=
  have h := C3_pane_option_overrides
    ⟨"x", ".",
      ⟨true, false, false, true, false, false, false, true, false, false,
       ⟨"", "jq", false, []⟩⟩⟩ ⟨[], false⟩ ⟨[], "", none⟩
  by
    rw [h.1]
    decide

/-- C4: whenever the subprocess run fails with an exit error (nonzero
exit, code `c`), `WriteTo` returns that exit error carrying exactly
the captured stderr bytes, and reports zero bytes written — for either
kind of destination. -/
theorem C4_nonzero_exit_surfaces_stderr (d : Document) (w : Dest)
    (out : List String) (se : String) (c : Int) :
    (d.WriteTo w ⟨out, se, some c⟩).err = some (.exitError c se) ∧
    (d.WriteTo w ⟨out, se, some c⟩).n = 0 := by
  cases w <;> simp [Document.WriteTo]

/-- Claim C8 is false on the reported write-side count: with input
`hello world` (11 bytes) and an identity run, `ReadFrom` reports 11
bytes but `WriteTo` reports 0 — the matching `TestDocumentWriteTo`
asserts exactly this 0. -/
theorem C8_counterexample :
    (Document.ReadFrom ⟨"", "-", opts0⟩ "hello world").2 = 11 ∧
    ((Document.ReadFrom ⟨"", "-", opts0⟩ "hello world").1.WriteTo (.buffer [])
        ⟨["hello world"], "", none⟩).n = 0 ∧
    ((0 : Int) ≠ 11) := by
  decide

/-- C8 (amended): with an identity run the destination receives
exactly the input bytes and the run succeeds; `ReadFrom` reports the
input's byte length, while `WriteTo` always reports zero bytes
written. -/
theorem C8_identity_run (s flt : String) (o : Options) (bs : List String) :
    (Document.ReadFrom ⟨"", flt, o⟩ s).2 = s.utf8ByteSize ∧
    (Document.ReadFrom ⟨"", flt, o⟩ s).1.input = s ∧
    ((Document.ReadFrom ⟨"", flt, o⟩ s).1.WriteTo (.buffer bs) ⟨[s], "", none⟩).dest
      = .buffer (bs ++ [s]) ∧
    ((Document.ReadFrom ⟨"", flt, o⟩ s).1.WriteTo (.buffer bs) ⟨[s], "", none⟩).n = 0 ∧
    ((Document.ReadFrom ⟨"", flt, o⟩ s).1.WriteTo (.buffer bs) ⟨[s], "", none⟩).err
      = none := by
  simp [Document.ReadFrom, Document.WriteTo]

/-- C10: `WriteTo` leaves its receiver untouched — the interactive
overrides live in a per-invocation copy of the options — so a later
plain-sink write of the same document still serializes the user's
original options and flags. -/
theorem C10_writeTo_frame (d : Document) (w : Dest) (run : ProcRun) :
    (d.WriteTo w run).doc = d ∧
    (∀ p run1 bs run2,
      ((d.WriteTo (.pane p) run1).doc.WriteTo (.buffer bs) run2).opts = d.options ∧
      ((d.WriteTo (.pane p) run1).doc.WriteTo (.buffer bs) run2).args
        = d.options.ToSlice ++ [d.filter]) := by
  constructor
  · obtain ⟨out, se, ec⟩ := run
    cases w <;> cases ec <;> simp [Document.WriteTo]
  · intro p run1 bs run2
    obtain ⟨o1, s1, e1⟩ := run1
    obtain ⟨o2, s2, e2⟩ := run2
    cases e1 <;> cases e2 <;> simp [Document.WriteTo]

/-- Claim C5 is false on the current history store: adding the
non-empty expression `foo` to a store with an unconfigured (empty)
path silently succeeds as a no-op — it does not fail with the
`EmptyPath` error (that error belongs to the superseded older
revision of the store). -/
theorem C5_counterexample :
    History.Add ⟨"", []⟩ [] "foo" = (⟨"", []⟩, [], none) ∧
    (History.Add ⟨"", []⟩ [] "foo").2.2 ≠ some GoError.emptyPath := by
  decide

/-- C5 (amended): adding to a store whose backing path is unconfigured
silently succeeds as a no-op whatever the content, and adding content
that trims to the empty string (in particular empty content) silently
succeeds as a no-op on every store — neither touches the backing
file. -/
theorem C5_add_noop_cases (h : History) (file : List String) (x : String) :
    (goTrimSpace x = "" → History.Add h file x = (h, file, none)) ∧
    (h.path = "" → History.Add h file x = (h, file, none)) ∧
    (x = "" → History.Add h file x = (h, file, none)) := by
  have h1 : goTrimSpace x = "" → History.Add h file x = (h, file, none) := by
    intro ht
    simp [History.Add, ht]
  refine ⟨h1, ?_, ?_⟩
  · intro hp
    by_cases ht : goTrimSpace x = ""
    · exact h1 ht
    · simp [History.Add, ht, hp]
  · rintro rfl
    exact h1 rfl

/-- Witness for `C5_add_noop_cases`: an unconfigured path with
non-empty content, and a configured path with empty content. -/
theorem C5_add_noop_cases_witness :
    History.Add ⟨"", []⟩ [] "bar" = (⟨"", []⟩, [], none) ∧
    History.Add ⟨"p", []⟩ [] "" = (⟨"p", []⟩, [], none) :=
  ⟨(C5_add_noop_cases ⟨"", []⟩ [] "bar").2.1 rfl,
   (C5_add_noop_cases ⟨"p", []⟩ [] "").2.2 rfl⟩

/-- Claim C6 is false for expressions that differ only in surrounding
whitespace: `add "a "` then `add "a"` on an empty loaded history
persists `["a"]` — `add` trims its argument before storing and before
the duplicate check — not the claimed `["a ", "a"]`. -/
theorem C6_counterexample :
    ("a " ≠ "a") ∧ ("a " ≠ "") ∧ ("a" ≠ "") ∧
    (History.Add (History.Add ⟨"h", []⟩ [] "a ").1
        (History.Add ⟨"h", []⟩ [] "a ").2.1 "a").2.1 = ["a"] ∧
    (["a"] : List String) ≠ ["a ", "a"] := by
  decide

/-- C6 (amended): for whitespace-free distinct non-empty expressions
not already present in the loaded history, consecutive adds append in
insertion order to both the in-memory lines and the backing file;
adding the same expression twice appends it once (idempotent); and the
duplicate check is exactly verbatim-string membership in the entire
loaded history. -/
theorem C6_insertion_order (path : String) (L file : List String) (e1 e2 : String)
    (hp : path ≠ "") (ht1 : goTrimSpace e1 = e1) (ht2 : goTrimSpace e2 = e2)
    (hn1 : e1 ≠ "") (hn2 : e2 ≠ "") (hm1 : e1 ∉ L) (hm2 : e2 ∉ L) (hne : e1 ≠ e2) :
    (History.Add ⟨path, L⟩ file e1).1 = ⟨path, L ++ [e1]⟩ ∧
    (History.Add ⟨path, L⟩ file e1).2.1 = file ++ [e1] ∧
    (History.Add ⟨path, L ++ [e1]⟩ (file ++ [e1]) e2).1.lines = L ++ [e1, e2] ∧
    (History.Add ⟨path, L ++ [e1]⟩ (file ++ [e1]) e2).2.1 = file ++ [e1, e2] ∧
    (History.Add ⟨path, L ++ [e1]⟩ (file ++ [e1]) e1).1.lines = L ++ [e1] ∧
    (History.Add ⟨path, L ++ [e1]⟩ (file ++ [e1]) e1).2.1 = file ++ [e1] ∧
    (∀ (arr : List String) (y : String), contains arr y = true ↔ y ∈ arr) := by
  have hc1 : contains L e1 = false := by
    cases hb : contains L e1 with
    | false => rfl
    | true => exact absurd ((contains_iff L e1).mp hb) hm1
  have hm2' : e2 ∉ L ++ [e1] := by
    rw [List.mem_append, List.mem_singleton]
    rintro (hmem | hmem)
    · exact hm2 hmem
    · exact hne hmem.symm
  have hc2 : contains (L ++ [e1]) e2 = false := by
    cases hb : contains (L ++ [e1]) e2 with
    | false => rfl
    | true => exact absurd ((contains_iff (L ++ [e1]) e2).mp hb) hm2'
  have hc3 : contains (L ++ [e1]) e1 = true :=
    (contains_iff (L ++ [e1]) e1).mpr (by simp)
  refine ⟨?_, ?_, ?_, ?_, ?_, ?_, contains_iff⟩ <;>
    simp [History.Add, ht1, ht2, hn1, hn2, hp, hc1, hc2, hc3]

/-- Witness for `C6_insertion_order`: adding `a` then `b` to an empty
store persists them in insertion order. -/
theorem C6_insertion_order_witness :
    (History.Add ⟨"h", []⟩ [] "a").1 = ⟨"h", ["a"]⟩ ∧
    (History.Add ⟨"h", ["a"]⟩ ["a"] "b").2.1 = ["a", "b"] :=
  have h := C6_insertion_order "h" [] [] "a" "b" (by decide) rfl rfl
    (by decide) (by decide) (by simp) (by simp) (by decide)
  ⟨h.1, h.2.2.2.1⟩

/-- C7: `Shift+g` parses to the literal rune `G` with an empty
modifier set, which matches the event carrying rune `G` with no
modifiers and does not match rune `g`; in general, for every
single-character base key whose (ASCII) uppercase transform differs —
exactly the lowercase letters — Shift is absorbed into the uppercased
rune and removed from the modifier set. -/
theorem C7_shift_absorbed :
    (KeyBinding.UnmarshalText "Shift+g" = .ok ⟨KeyRune, 'G', ModNone⟩) ∧
    ((⟨KeyRune, 'G', ModNone⟩ : KeyBinding).Matches ⟨KeyRune, 'G', ModNone⟩ = true) ∧
    ((⟨KeyRune, 'G', ModNone⟩ : KeyBinding).Matches ⟨KeyRune, 'g', ModNone⟩ = false) ∧
    (∀ c ∈ alphabet.data,
      goToUpperChar c ≠ c ∧
      KeyBinding.UnmarshalText ⟨['S', 'h', 'i', 'f', 't', '+', c]⟩ =
        .ok ⟨KeyRune, goToUpperChar c, ModNone⟩ ∧
      (⟨KeyRune, goToUpperChar c, ModNone⟩ : KeyBinding).Matches
        ⟨KeyRune, goToUpperChar c, ModNone⟩ = true ∧
      (⟨KeyRune, goToUpperChar c, ModNone⟩ : KeyBinding).Matches
        ⟨KeyRune, c, ModNone⟩ = false) := by
  decide

/-- Witness for `C7_shift_absorbed` at the letter `g`. -/
theorem C7_shift_absorbed_witness :
    KeyBinding.UnmarshalText ⟨['S', 'h', 'i', 'f', 't', '+', 'g']⟩ =
      .ok ⟨KeyRune, goToUpperChar 'g', ModNone⟩ :=
  (C7_shift_absorbed.2.2.2 'g' (by decide)).2.1

end Ijq
